import Mathlib

/-!
Shallow embedding of `src/board.rs` (a chess move-legality checker on an
8×8 board) and verification of its specification claims.

Modelling conventions:
* `[[SquareState; 8]; 8]` becomes `Fin 8 → Fin 8 → SquareState` (curried,
  row first, matching `self.0[row][col]`).
* Rust strings handed to `convert_square_number` are modelled as the
  lists of `Char` (Unicode scalar values) a `&str` denotes; `str::trim`
  drops the characters with the Unicode `White_Space` property from both
  ends (`isWhitespaceChar`, exactly Rust `char::is_whitespace`), and the
  length check and two-byte extraction of the source act on the UTF-8
  byte sequence of the trimmed string (`strBytes`, `utf8Encode`), which
  is what `str::len` and `str::bytes` expose.
* `usize` arithmetic is `Nat`; the pawn arms' `r2 - r1` / `r1 - r2`, which
  can go below zero, are modelled by wrapping subtraction modulo 2^64
  (Rust release semantics), made explicit as `wsub`.
* The fallible functions return `Except ChessError`; `&mut self` in
  `move_piece` becomes explicit state passing: the function returns the
  (possibly unchanged) board together with the `Result`.
-/

namespace Chess

inductive Piece where
  | Pawn
  | Rook
  | Knight
  | Bishop
  | Queen
  | King
deriving DecidableEq, Repr

inductive SquareState where
  | Empty
  | White (p : Piece)
  | Black (p : Piece)
deriving DecidableEq, Repr

inductive Team where
  | White
  | Black
deriving DecidableEq, Repr

inductive ChessError where
  | InvalidSquare
  | NotAMove
  | MoveFromEmpty
  | MoveFromEnemyPiece
  | IllegalMove
  | MoveToTeamPiece
deriving DecidableEq, Repr

instance {ε α : Type} [DecidableEq ε] [DecidableEq α] :
    DecidableEq (Except ε α) := fun x y =>
  match x, y with
  | .ok a, .ok b =>
    if h : a = b then .isTrue (h ▸ rfl)
    else .isFalse (fun he => h (Except.ok.inj he))
  | .error a, .error b =>
    if h : a = b then .isTrue (h ▸ rfl)
    else .isFalse (fun he => h (Except.error.inj he))
  | .ok _, .error _ => .isFalse (fun he => Except.noConfusion he)
  | .error _, .ok _ => .isFalse (fun he => Except.noConfusion he)

/-- The board: `Board([[SquareState; 8]; 8])`, indexed `self.0[row][col]`. -/
abbrev Board := Fin 8 → Fin 8 → SquareState

/-- The back-rank array `fst_row` of `Board::new`. -/
def fst_row : Fin 8 → Piece
  | 0 => .Rook
  | 1 => .Knight
  | 2 => .Bishop
  | 3 => .King
  | 4 => .Queen
  | 5 => .Bishop
  | 6 => .Knight
  | 7 => .Rook

/-- `Board::new`: rows 0/7 from `fst_row` (White/Black), rows 1/6 pawns,
the rest `Empty`. -/
def Board.new : Board := fun r c =>
  if r = 0 then .White (fst_row c)
  else if r = 7 then .Black (fst_row c)
  else if r = 1 then .White .Pawn
  else if r = 6 then .Black .Pawn
  else .Empty

/-- Rust `char::is_whitespace`: true exactly on the code points with the
Unicode `White_Space` property (U+0009–U+000D, U+0020, U+0085, U+00A0,
U+1680, U+2000–U+200A, U+2028, U+2029, U+202F, U+205F, U+3000). -/
def isWhitespaceChar (c : Char) : Bool :=
  decide (c.toNat = 0x09 ∨ c.toNat = 0x0A ∨ c.toNat = 0x0B ∨
    c.toNat = 0x0C ∨ c.toNat = 0x0D ∨ c.toNat = 0x20 ∨ c.toNat = 0x85 ∨
    c.toNat = 0xA0 ∨ c.toNat = 0x1680 ∨
    (0x2000 ≤ c.toNat ∧ c.toNat ≤ 0x200A) ∨ c.toNat = 0x2028 ∨
    c.toNat = 0x2029 ∨ c.toNat = 0x202F ∨ c.toNat = 0x205F ∨
    c.toNat = 0x3000)

/-- `str::trim`: drop whitespace characters from both ends. -/
def trimChars (s : List Char) : List Char :=
  ((s.dropWhile isWhitespaceChar).reverse.dropWhile isWhitespaceChar).reverse

/-- UTF-8 encoding of one Unicode scalar value: the bytes `str::bytes`
yields for that character. -/
def utf8Encode (n : Nat) : List Nat :=
  if n < 0x80 then [n]
  else if n < 0x800 then [0xC0 + n / 0x40, 0x80 + n % 0x40]
  else if n < 0x10000 then
    [0xE0 + n / 0x1000, 0x80 + n / 0x40 % 0x40, 0x80 + n % 0x40]
  else
    [0xF0 + n / 0x40000, 0x80 + n / 0x1000 % 0x40, 0x80 + n / 0x40 % 0x40,
      0x80 + n % 0x40]

/-- The UTF-8 byte sequence of a string: `str::len` counts these bytes
and `str::bytes` iterates them. -/
def strBytes (s : List Char) : List Nat :=
  (s.map (fun c => utf8Encode c.toNat)).flatten

/-- The body of `convert_square_number` after trimming, as a function of
the trimmed string's bytes: `if number.len() == 2`, take the two bytes
and match rank `b'1'..=b'8'` then file `b'a'..=b'h'` / `b'A'..=b'H'`,
else (and on any non-matching pair) `Err(InvalidSquare)`. The in-range
proofs carried by `Fin 8` come from the byte ranges of the match. -/
def parseTwoBytes : List Nat → Except ChessError (Fin 8 × Fin 8)
  | [row, col] =>
    if h1 : 0x31 ≤ row ∧ row ≤ 0x38 ∧ 0x61 ≤ col ∧ col ≤ 0x68 then
      .ok (⟨row - 0x31, by omega⟩, ⟨col - 0x61, by omega⟩)
    else if h2 : 0x31 ≤ row ∧ row ≤ 0x38 ∧ 0x41 ≤ col ∧ col ≤ 0x48 then
      .ok (⟨row - 0x31, by omega⟩, ⟨col - 0x41, by omega⟩)
    else .error .InvalidSquare
  | _ => .error .InvalidSquare

/-- `Board::convert_square_number`: trim the string (Unicode whitespace),
then require its byte length to be exactly two and match the two bytes as
rank digit then file letter, returning zero-based `(row, col)`. -/
def convert_square_number (number : List Char) :
    Except ChessError (Fin 8 × Fin 8) :=
  parseTwoBytes (strBytes (trimChars number))

/-- `Board::is_not_enemy`: `Err(MoveFromEnemyPiece)` when the square holds
a piece of the side opposing `turn`. -/
def is_not_enemy (b : Board) (turn : Team) (row col : Fin 8) :
    Except ChessError Unit :=
  match turn, b row col with
  | .White, .Black _ => .error .MoveFromEnemyPiece
  | .Black, .White _ => .error .MoveFromEnemyPiece
  | _, _ => .ok ()

/-- `Board::is_not_team`: `Err(MoveToTeamPiece)` when the square holds a
piece of `turn`'s own side. -/
def is_not_team (b : Board) (turn : Team) (row col : Fin 8) :
    Except ChessError Unit :=
  match turn, b row col with
  | .White, .White _ => .error .MoveToTeamPiece
  | .Black, .Black _ => .error .MoveToTeamPiece
  | _, _ => .ok ()

/-- `Board::is_a_move`: `Err(NotAMove)` when both deltas are zero. -/
def is_a_move (dr dc : Nat) : Except ChessError Unit :=
  if dr = 0 ∧ dc = 0 then .error .NotAMove else .ok ()

/-- Wrapping `usize` subtraction (Rust release semantics): `a - b`
modulo `2^64`.  Faithful for `b ≤ 2^64`, which covers every use here
(both operands are board indices `< 8`). -/
def wsub (a b : Nat) : Nat :=
  (a + 2 ^ 64 - b) % 2 ^ 64

/-- Does the square hold a Black piece (`Black(_)` pattern)? -/
def isBlack : SquareState → Bool
  | .Black _ => true
  | _ => false

/-- Does the square hold a White piece (`White(_)` pattern)? -/
def isWhite : SquareState → Bool
  | .White _ => true
  | _ => false

/-- `Board::is_legal_move`: ownership checks, the not-a-move check on the
absolute deltas `dr`/`dc`, then the shape dispatch on the source square.
The pawn arms match the wrapping differences `r2 - r1` (White) and
`r1 - r2` (Black) exactly as the source does. -/
def is_legal_move (b : Board) (turn : Team) (r1 c1 r2 c2 : Fin 8) :
    Except ChessError Unit :=
  match is_not_enemy b turn r1 c1 with
  | .error e => .error e
  | .ok _ =>
  match is_not_team b turn r2 c2 with
  | .error e => .error e
  | .ok _ =>
  let dr := max r1.val r2.val - min r1.val r2.val
  let dc := max c1.val c2.val - min c1.val c2.val
  match is_a_move dr dc with
  | .error e => .error e
  | .ok _ =>
  match b r1 c1 with
  | .White .Pawn =>
    if wsub r2.val r1.val = 1 ∧ dc = 0 ∧ b r2 c2 = .Empty then .ok ()
    else if wsub r2.val r1.val = 1 ∧ dc = 1 ∧ isBlack (b r2 c2) then .ok ()
    else .error .IllegalMove
  | .Black .Pawn =>
    if wsub r1.val r2.val = 1 ∧ dc = 0 ∧ b r2 c2 = .Empty then .ok ()
    else if wsub r1.val r2.val = 1 ∧ dc = 1 ∧ isWhite (b r2 c2) then .ok ()
    else .error .IllegalMove
  | .White .Rook | .Black .Rook =>
    if dr = 0 ∨ dc = 0 then .ok () else .error .IllegalMove
  | .White .Knight | .Black .Knight =>
    if (dr = 1 ∧ dc = 2) ∨ (dr = 2 ∧ dc = 1) then .ok ()
    else .error .IllegalMove
  | .White .Bishop | .Black .Bishop =>
    if dr = dc then .ok () else .error .IllegalMove
  | .White .Queen | .Black .Queen =>
    if dr = 0 ∨ dc = 0 ∨ dr = dc then .ok () else .error .IllegalMove
  | .White .King | .Black .King =>
    if dr ≤ 1 ∧ dc ≤ 1 then .ok () else .error .IllegalMove
  | .Empty => .error .MoveFromEmpty

/-- Writing one square: `self.0[r][c] = v` (update row `r` at column `c`). -/
def setSquare (b : Board) (r c : Fin 8) (v : SquareState) : Board :=
  Function.update b r (Function.update (b r) c v)

/-- `Board::move_piece` with the `&mut self` made explicit: returns the
board after the call together with the `Result`.  On success the source
is copied onto the destination first, `killed` is then computed from the
(source) square `self.0[r1][c1]`, and the source is cleared — in that
order, as in the source. -/
def move_piece (b : Board) (turn : Team) (fromSq toSq : List Char) :
    Board × Except ChessError (Option Piece) :=
  match convert_square_number fromSq with
  | .error e => (b, .error e)
  | .ok (r1, c1) =>
  match convert_square_number toSq with
  | .error e => (b, .error e)
  | .ok (r2, c2) =>
  match is_legal_move b turn r1 c1 r2 c2 with
  | .error e => (b, .error e)
  | .ok _ =>
    let b1 := setSquare b r2 c2 (b r1 c1)
    let killed : Option Piece :=
      match b1 r1 c1 with
      | .White p => some p
      | .Black p => some p
      | .Empty => none
    let b2 := setSquare b1 r1 c1 .Empty
    (b2, .ok killed)

/-- Weight 1 for an occupied square, 0 for an empty one. -/
def pieceWeight : SquareState → Nat
  | .Empty => 0
  | .White _ => 1
  | .Black _ => 1

/-- Total number of occupied squares on the board. -/
def pieceCount (b : Board) : Nat :=
  ∑ r : Fin 8, ∑ c : Fin 8, pieceWeight (b r c)

/-- Weight 1 exactly on squares equal to the given state. -/
def stateWeight (s q : SquareState) : Nat := if q = s then 1 else 0

/-- Number of squares holding exactly the state `s` (side + piece kind). -/
def stateCount (s : SquareState) (b : Board) : Nat :=
  ∑ r : Fin 8, ∑ c : Fin 8, stateWeight s (b r c)

/-- Fold a list of `move_piece` calls (side, from-label, to-label), starting
from the standard initial board, keeping the board each call returns. -/
def runMoves (ms : List (Team × List Char × List Char)) : Board :=
  ms.foldl (fun b m => (move_piece b m.1 m.2.1 m.2.2).1) Board.new

lemma sum_update_add {α : Type} [DecidableEq α] [Fintype α]
    (f : α → Nat) (i : α) (v : Nat) :
    (∑ j, Function.update f i v j) + f i = (∑ j, f j) + v := by
  rw [Finset.sum_update_of_mem (Finset.mem_univ i), ← Finset.erase_eq,
    ← Finset.add_sum_erase Finset.univ f (Finset.mem_univ i)]
  omega

lemma sum_comp_update {α : Type} (g : α → Nat) (f : Fin 8 → α)
    (i : Fin 8) (v : α) :
    (∑ j, g (Function.update f i v j)) + g (f i) = (∑ j, g (f j)) + g v := by
  have h : ∀ j, g (Function.update f i v j) =
      Function.update (fun j => g (f j)) i (g v) j := by
    intro j
    by_cases hj : j = i
    · subst hj; rw [Function.update_same, Function.update_same]
    · rw [Function.update_noteq hj, Function.update_noteq hj]
  rw [Finset.sum_congr rfl (fun j _ => h j)]
  exact sum_update_add (fun j => g (f j)) i (g v)

lemma weightSum_setSquare (w : SquareState → Nat) (b : Board)
    (r c : Fin 8) (v : SquareState) :
    (∑ x : Fin 8, ∑ y : Fin 8, w (setSquare b r c v x y)) + w (b r c) =
    (∑ x : Fin 8, ∑ y : Fin 8, w (b x y)) + w v := by
  have hin : (∑ y, w (Function.update (b r) c v y)) + w (b r c) =
      (∑ y, w (b r y)) + w v :=
    sum_comp_update w (b r) c v
  have hout := sum_comp_update (fun row => ∑ y, w (row y)) b r
    (Function.update (b r) c v)
  simp only [] at hout
  simp only [setSquare]
  omega

lemma pieceCount_setSquare (b : Board) (r c : Fin 8) (v : SquareState) :
    pieceCount (setSquare b r c v) + pieceWeight (b r c) =
    pieceCount b + pieceWeight v :=
  weightSum_setSquare pieceWeight b r c v

lemma stateCount_setSquare (s : SquareState) (b : Board) (r c : Fin 8)
    (v : SquareState) :
    stateCount s (setSquare b r c v) + stateWeight s (b r c) =
    stateCount s b + stateWeight s v :=
  weightSum_setSquare (stateWeight s) b r c v

lemma setSquare_self (b : Board) (r c : Fin 8) (v : SquareState) :
    setSquare b r c v r c = v := by
  simp [setSquare]

lemma setSquare_other (b : Board) (r c : Fin 8) (v : SquareState)
    (i j : Fin 8) (h : ¬(i = r ∧ j = c)) : setSquare b r c v i j = b i j := by
  by_cases hi : i = r
  · subst hi
    have hj : j ≠ c := fun hj => h ⟨rfl, hj⟩
    rw [setSquare, Function.update_same, Function.update_noteq hj]
  · rw [setSquare, Function.update_noteq hi]

lemma wsub_eq_one_iff (a b : Nat) (ha : a < 8) (hb : b < 8) :
    wsub a b = 1 ↔ a = b + 1 := by
  have h64 : (2 : Nat) ^ 64 = 18446744073709551616 := by norm_num
  unfold wsub
  rw [h64]
  omega

lemma is_legal_move_ok_facts (b : Board) (turn : Team) (r1 c1 r2 c2 : Fin 8)
    (h : is_legal_move b turn r1 c1 r2 c2 = .ok ()) :
    ¬(r1 = r2 ∧ c1 = c2) ∧ b r1 c1 ≠ .Empty := by
  constructor
  · rintro ⟨rfl, rfl⟩
    simp only [is_legal_move, is_a_move, Nat.max_self, Nat.min_self,
      Nat.sub_self] at h
    split at h
    · cases h
    · split at h
      · cases h
      · simp at h
  · intro hemp
    simp only [is_legal_move, hemp] at h
    split at h
    · cases h
    · split at h
      · cases h
      · split at h
        · cases h
        · cases h

lemma move_piece_ok_facts (b : Board) (turn : Team) (fromSq toSq : List Char)
    (b' : Board) (k : Option Piece)
    (h : move_piece b turn fromSq toSq = (b', .ok k)) :
    ∃ r1 c1 r2 c2, convert_square_number fromSq = .ok (r1, c1) ∧
      convert_square_number toSq = .ok (r2, c2) ∧
      is_legal_move b turn r1 c1 r2 c2 = .ok () ∧
      ¬(r1 = r2 ∧ c1 = c2) ∧ b r1 c1 ≠ .Empty ∧
      b' = setSquare (setSquare b r2 c2 (b r1 c1)) r1 c1 .Empty ∧
      k = (match b r1 c1 with
        | .White p => some p
        | .Black p => some p
        | .Empty => none) := by
  simp only [move_piece] at h
  split at h
  · simp at h
  next r1 c1 heq1 =>
  split at h
  · simp at h
  next r2 c2 heq2 =>
  split at h
  · simp at h
  next u heq3 =>
  have hu : u = () := rfl
  subst hu
  have hfacts := is_legal_move_ok_facts b turn r1 c1 r2 c2 heq3
  obtain ⟨hne, hemp⟩ := hfacts
  obtain ⟨hb', hk⟩ := Prod.mk.injEq .. ▸ h
  refine ⟨r1, c1, r2, c2, heq1, heq2, heq3, hne, hemp, hb'.symm, ?_⟩
  have hsrc : setSquare b r2 c2 (b r1 c1) r1 c1 = b r1 c1 :=
    setSquare_other b r2 c2 (b r1 c1) r1 c1 hne
  rw [← Except.ok.inj hk, hsrc]

lemma delta_zero_iff (a b : Fin 8) :
    max a.val b.val - min a.val b.val = 0 ↔ a = b := by
  rw [Fin.ext_iff]
  omega

lemma is_a_move_ok_of_ne (r1 c1 r2 c2 : Fin 8)
    (hne : ¬(r1 = r2 ∧ c1 = c2)) :
    is_a_move (max r1.val r2.val - min r1.val r2.val)
      (max c1.val c2.val - min c1.val c2.val) = .ok () := by
  rw [is_a_move, if_neg]
  rintro ⟨h1, h2⟩
  exact hne ⟨(delta_zero_iff r1 r2).mp h1, (delta_zero_iff c1 c2).mp h2⟩

lemma move_piece_error_eq (b : Board) (turn : Team) (fromSq toSq : List Char)
    (b' : Board) (e : ChessError)
    (h : move_piece b turn fromSq toSq = (b', .error e)) : b' = b := by
  simp only [move_piece] at h
  split at h
  · exact (Prod.mk.injEq .. ▸ h).1.symm
  split at h
  · exact (Prod.mk.injEq .. ▸ h).1.symm
  split at h
  · exact (Prod.mk.injEq .. ▸ h).1.symm
  · exact absurd (Prod.mk.injEq .. ▸ h).2 (fun hx => Except.noConfusion hx)

lemma pieceCount_move_succ (b : Board) (turn : Team)
    (fromSq toSq : List Char) (b' : Board) (k : Option Piece)
    (r1 c1 r2 c2 : Fin 8)
    (h : move_piece b turn fromSq toSq = (b', .ok k))
    (hf : convert_square_number fromSq = .ok (r1, c1))
    (ht : convert_square_number toSq = .ok (r2, c2)) :
    pieceCount b' + pieceWeight (b r2 c2) = pieceCount b := by
  obtain ⟨r1', c1', r2', c2', heq1, heq2, _, hne, _, hb', _⟩ :=
    move_piece_ok_facts b turn fromSq toSq b' k h
  obtain ⟨hr1, hc1⟩ := Prod.mk.injEq .. ▸ Except.ok.inj (hf.symm.trans heq1)
  obtain ⟨hr2, hc2⟩ := Prod.mk.injEq .. ▸ Except.ok.inj (ht.symm.trans heq2)
  subst hr1; subst hc1; subst hr2; subst hc2
  have h1 := pieceCount_setSquare b r2 c2 (b r1 c1)
  have h2 := pieceCount_setSquare (setSquare b r2 c2 (b r1 c1)) r1 c1 .Empty
  rw [setSquare_other b r2 c2 (b r1 c1) r1 c1 hne] at h2
  have hw0 : pieceWeight .Empty = 0 := rfl
  rw [hw0] at h2
  rw [hb']
  omega

lemma stateCount_move_le (b : Board) (turn : Team)
    (fromSq toSq : List Char) (s : SquareState) (hs : s ≠ .Empty) :
    stateCount s (move_piece b turn fromSq toSq).1 ≤ stateCount s b := by
  rcases hm : move_piece b turn fromSq toSq with ⟨b', res⟩
  show stateCount s b' ≤ stateCount s b
  rcases res with e | k
  · rw [move_piece_error_eq b turn fromSq toSq b' e hm]
  · obtain ⟨r1, c1, r2, c2, _, _, _, hne, _, hb', _⟩ :=
      move_piece_ok_facts b turn fromSq toSq b' k hm
    have h1 := stateCount_setSquare s b r2 c2 (b r1 c1)
    have h2 := stateCount_setSquare s (setSquare b r2 c2 (b r1 c1)) r1 c1 .Empty
    rw [setSquare_other b r2 c2 (b r1 c1) r1 c1 hne] at h2
    have hw : stateWeight s .Empty = 0 := by
      rw [stateWeight, if_neg (fun hx => hs hx.symm)]
    rw [hb']
    omega

lemma pieceCount_move_le (b : Board) (turn : Team) (fromSq toSq : List Char) :
    pieceCount (move_piece b turn fromSq toSq).1 ≤ pieceCount b := by
  rcases hm : move_piece b turn fromSq toSq with ⟨b', res⟩
  show pieceCount b' ≤ pieceCount b
  rcases res with e | k
  · rw [move_piece_error_eq b turn fromSq toSq b' e hm]
  · obtain ⟨r1, c1, r2, c2, heq1, heq2, _, _, _, _, _⟩ :=
      move_piece_ok_facts b turn fromSq toSq b' k hm
    have := pieceCount_move_succ b turn fromSq toSq b' k r1 c1 r2 c2 hm heq1 heq2
    omega

lemma pieceCount_new : pieceCount Board.new = 32 := by decide

lemma pieceCount_foldl_le (ms : List (Team × List Char × List Char)) :
    ∀ b : Board, pieceCount b ≤ 32 →
      pieceCount (ms.foldl (fun b m => (move_piece b m.1 m.2.1 m.2.2).1) b) ≤ 32 := by
  induction ms with
  | nil => intro b hb; exact hb
  | cons m ms ih =>
    intro b hb
    exact ih _ (le_trans (pieceCount_move_le b m.1 m.2.1 m.2.2) hb)

/-- The standard-position layout with the two middle back-rank files as
`Board::new` actually fills them: King on file d (column 3) and Queen on
file e (column 4), mirrored for both sides; pawns on rows 1 and 6; all
other squares empty. -/
def startingLayoutKingOnD : Board := fun r c =>
  if r = 0 ∨ r = 7 then
    (if r = 0 then SquareState.White else SquareState.Black)
      (if c = 0 ∨ c = 7 then .Rook
       else if c = 1 ∨ c = 6 then .Knight
       else if c = 2 ∨ c = 5 then .Bishop
       else if c = 3 then .King
       else .Queen)
  else if r = 1 then .White .Pawn
  else if r = 6 then .Black .Pawn
  else .Empty

/-- C1: at the claim's own example input — initial board, White plays
"2c" to "3c", a legal straight pawn move onto an empty destination — the
code returns `Ok(Some(Pawn))`, not the `Ok(None)` the claim requires;
and in a genuine diagonal capture of a Black Queen by a White pawn the
code still returns `Ok(Some(Pawn))` (the moving piece, read from the
source square) rather than the captured piece's kind `Queen`. -/
theorem C1_captured_piece_divergence :
    Board.new 2 2 = .Empty ∧
    (move_piece Board.new .White ['2', 'c'] ['3', 'c']).2 =
      .ok (some .Pawn) ∧
    setSquare Board.new 2 3 (.Black .Queen) 2 3 = .Black .Queen ∧
    (move_piece (setSquare Board.new 2 3 (.Black .Queen)) .White
      ['2', 'c'] ['3', 'd']).2 = .ok (some .Pawn) := by
  decide

/-- C2 counterexample: `Board::new` puts the White King, not the Queen,
on file d (row 0, column 3), and the Queen on file e (row 0, column 4) —
the claim's placement "Queen on file d, King on file e" is false of the
code (the same swap occurs on Black's back rank). -/
theorem C2_counterexample :
    Board.new 0 3 ≠ .White .Queen ∧ Board.new 0 3 = .White .King ∧
    Board.new 0 4 = .White .Queen ∧ Board.new 7 3 = .Black .King := by
  decide

/-- C2 amended: `Board::new` produces the standard starting position
except that on each back rank the King sits on file d (column 3) and the
Queen on file e (column 4): rows 0/7 hold Rook, Knight, Bishop, King,
Queen, Bishop, Knight, Rook for White/Black, rows 1 and 6 are all pawns
of the respective side, and the remaining 32 squares are empty. -/
theorem C2_new_layout :
    ∀ r c : Fin 8, Board.new r c = startingLayoutKingOnD r c := by
  decide

/-- C4: whenever `move_piece` returns an error — any parse failure or any
legality violation — the board it returns is exactly the board it was
given; no square is modified on any error path. -/
theorem C4_error_leaves_board_unchanged (b : Board) (turn : Team)
    (fromSq toSq : List Char) (b' : Board) (e : ChessError)
    (h : move_piece b turn fromSq toSq = (b', .error e)) : b' = b :=
  move_piece_error_eq b turn fromSq toSq b' e h

/-- Witness for C4: the initial board, White "1a" to "1a" fails (with
`MoveToTeamPiece`) and the returned board is the initial board itself. -/
theorem C4_witness :
    move_piece Board.new .White ['1', 'a'] ['1', 'a'] =
      (Board.new, .error .MoveToTeamPiece) ∧ Board.new = Board.new :=
  ⟨by decide, C4_error_leaves_board_unchanged Board.new .White
    ['1', 'a'] ['1', 'a'] Board.new .MoveToTeamPiece (by decide)⟩

/-- C9: on every successful `move_piece` call, with the two parsed
squares (r1,c1) and (r2,c2), exactly those two squares change: they are
distinct, the destination afterward holds the source's prior contents,
the source afterward is `Empty`, and every other square is unchanged. -/
theorem C9_success_frame (b : Board) (turn : Team) (fromSq toSq : List Char)
    (b' : Board) (k : Option Piece) (r1 c1 r2 c2 : Fin 8)
    (hf : convert_square_number fromSq = .ok (r1, c1))
    (ht : convert_square_number toSq = .ok (r2, c2))
    (h : move_piece b turn fromSq toSq = (b', .ok k)) :
    ¬(r1 = r2 ∧ c1 = c2) ∧
    b' r2 c2 = b r1 c1 ∧ b' r1 c1 = .Empty ∧
    ∀ i j : Fin 8, ¬(i = r1 ∧ j = c1) → ¬(i = r2 ∧ j = c2) →
      b' i j = b i j := by
  obtain ⟨r1', c1', r2', c2', heq1, heq2, _, hne, _, hb', _⟩ :=
    move_piece_ok_facts b turn fromSq toSq b' k h
  obtain ⟨hr1, hc1⟩ := Prod.mk.injEq .. ▸ Except.ok.inj (hf.symm.trans heq1)
  obtain ⟨hr2, hc2⟩ := Prod.mk.injEq .. ▸ Except.ok.inj (ht.symm.trans heq2)
  subst hr1; subst hc1; subst hr2; subst hc2
  have hne' : ¬(r2 = r1 ∧ c2 = c1) := fun hx => hne ⟨hx.1.symm, hx.2.symm⟩
  refine ⟨hne, ?_, ?_, ?_⟩
  · rw [hb', setSquare_other _ r1 c1 .Empty r2 c2 hne',
      setSquare_self b r2 c2 (b r1 c1)]
  · rw [hb', setSquare_self]
  · intro i j hij1 hij2
    rw [hb', setSquare_other _ r1 c1 .Empty i j hij1,
      setSquare_other b r2 c2 (b r1 c1) i j hij2]

/-- Witness for C9: initial board, White "2c" to "3c": (1,2) and (2,2)
are distinct, the pawn arrives on (2,2), (1,2) is cleared, and a sample
untouched square (0,0) keeps its rook. -/
theorem C9_witness :
    ¬((1 : Fin 8) = 2 ∧ (2 : Fin 8) = 2) ∧
    (move_piece Board.new .White ['2', 'c'] ['3', 'c']).1 2 2 =
      Board.new 1 2 ∧
    (move_piece Board.new .White ['2', 'c'] ['3', 'c']).1 1 2 =
      .Empty ∧
    (move_piece Board.new .White ['2', 'c'] ['3', 'c']).1 0 0 =
      Board.new 0 0 := by
  have h := C9_success_frame Board.new .White ['2', 'c'] ['3', 'c']
    (move_piece Board.new .White ['2', 'c'] ['3', 'c']).1
    (some .Pawn) 1 2 2 2 (by decide) (by decide) (by decide)
  exact ⟨h.1, h.2.1, h.2.2.1, h.2.2.2 0 0 (by decide) (by decide)⟩

/-- C10: a successful `move_piece` call never returns `Ok(None)`: the
returned option is `some p` where `p` is the kind of the piece standing
on the parsed source square (which a successful move never leaves empty). -/
theorem C10_success_is_some (b : Board) (turn : Team)
    (fromSq toSq : List Char) (b' : Board) (k : Option Piece)
    (h : move_piece b turn fromSq toSq = (b', .ok k)) :
    ∃ p : Piece, k = some p ∧
      ∃ r1 c1, convert_square_number fromSq = .ok (r1, c1) ∧
        (b r1 c1 = .White p ∨ b r1 c1 = .Black p) := by
  obtain ⟨r1, c1, r2, c2, heq1, _, _, _, hemp, _, hk⟩ :=
    move_piece_ok_facts b turn fromSq toSq b' k h
  cases hsrc : b r1 c1 with
  | Empty => exact absurd hsrc hemp
  | White p =>
    rw [hsrc] at hk
    exact ⟨p, hk, r1, c1, heq1, Or.inl hsrc⟩
  | Black p =>
    rw [hsrc] at hk
    exact ⟨p, hk, r1, c1, heq1, Or.inr hsrc⟩

/-- Witness for C10: initial board, White "2c" to "3c" succeeds and the
returned option is `some Pawn`, the pawn read from source square (1,2). -/
theorem C10_witness :
    ∃ p : Piece, (some Piece.Pawn : Option Piece) = some p ∧
      ∃ r1 c1, convert_square_number ['2', 'c'] = .ok (r1, c1) ∧
        (Board.new r1 c1 = .White p ∨ Board.new r1 c1 = .Black p) :=
  C10_success_is_some Board.new .White ['2', 'c'] ['3', 'c']
    (move_piece Board.new .White ['2', 'c'] ['3', 'c']).1
    (some .Pawn) (by decide)

/-- C7: the legality checks run in the fixed order source-ownership,
destination-ownership, non-null-move, piece-shape, and the first failing
check determines the reported violation; in particular, a source square
held by the non-acting side always yields `MoveFromEnemyPiece`, whatever
the destination holds and whatever the shape of the move. -/
theorem C7_check_order (b : Board) (turn : Team) (r1 c1 r2 c2 : Fin 8) :
    (∀ p : Piece, ((turn = .White ∧ b r1 c1 = .Black p) ∨
        (turn = .Black ∧ b r1 c1 = .White p)) →
      is_legal_move b turn r1 c1 r2 c2 = .error .MoveFromEnemyPiece) ∧
    (is_not_enemy b turn r1 c1 = .ok () →
      is_not_team b turn r2 c2 = .error .MoveToTeamPiece →
      is_legal_move b turn r1 c1 r2 c2 = .error .MoveToTeamPiece) ∧
    (is_not_enemy b turn r1 c1 = .ok () →
      is_not_team b turn r2 c2 = .ok () → r1 = r2 → c1 = c2 →
      is_legal_move b turn r1 c1 r2 c2 = .error .NotAMove) ∧
    (is_not_enemy b turn r1 c1 = .ok () →
      is_not_team b turn r2 c2 = .ok () → ¬(r1 = r2 ∧ c1 = c2) →
      is_legal_move b turn r1 c1 r2 c2 = .ok () ∨
      is_legal_move b turn r1 c1 r2 c2 = .error .IllegalMove ∨
      is_legal_move b turn r1 c1 r2 c2 = .error .MoveFromEmpty) := by
  refine ⟨?_, ?_, ?_, ?_⟩
  · rintro p (⟨ht, hs⟩ | ⟨ht, hs⟩) <;> subst ht <;>
      simp only [is_legal_move, is_not_enemy, hs]
  · intro h1 h2
    simp only [is_legal_move, h1, h2]
  · intro h1 h2 hr hc
    subst hr; subst hc
    simp only [is_legal_move, h1, h2, Nat.max_self, Nat.min_self,
      Nat.sub_self, is_a_move]
    simp
  · intro h1 h2 hne
    simp only [is_legal_move, h1, h2, is_a_move_ok_of_ne r1 c1 r2 c2 hne]
    rcases hsq : b r1 c1 with _ | p | p
    · simp
    · cases p <;> simp only [] <;> split_ifs <;> simp
    · cases p <;> simp only [] <;> split_ifs <;> simp

/-- Witness for C7: first conjunct at Board.new, White attempting to move
Black's rook on (7,0) to (5,0) — rejected as `MoveFromEnemyPiece`. -/
theorem C7_witness :
    is_legal_move Board.new .White 7 0 5 0 = .error .MoveFromEnemyPiece :=
  (C7_check_order Board.new .White 7 0 5 0).1 .Rook (Or.inl ⟨rfl, by decide⟩)

/-- C8: for every board and every source/destination pair passing the
ownership and non-null-move checks, a Rook on the source moves legally
iff `dr = 0 ∨ dc = 0`, a Bishop iff `dr = dc`, a Queen iff either — in
each case for every board with those squares, hence independent of
whether any intervening square is occupied. -/
theorem C8_sliding_shapes (b : Board) (turn : Team) (r1 c1 r2 c2 : Fin 8)
    (h1 : is_not_enemy b turn r1 c1 = .ok ())
    (h2 : is_not_team b turn r2 c2 = .ok ())
    (hne : ¬(r1 = r2 ∧ c1 = c2)) :
    ((b r1 c1 = .White .Rook ∨ b r1 c1 = .Black .Rook) →
      (is_legal_move b turn r1 c1 r2 c2 = .ok () ↔
        max r1.val r2.val - min r1.val r2.val = 0 ∨
        max c1.val c2.val - min c1.val c2.val = 0)) ∧
    ((b r1 c1 = .White .Bishop ∨ b r1 c1 = .Black .Bishop) →
      (is_legal_move b turn r1 c1 r2 c2 = .ok () ↔
        max r1.val r2.val - min r1.val r2.val =
        max c1.val c2.val - min c1.val c2.val)) ∧
    ((b r1 c1 = .White .Queen ∨ b r1 c1 = .Black .Queen) →
      (is_legal_move b turn r1 c1 r2 c2 = .ok () ↔
        max r1.val r2.val - min r1.val r2.val = 0 ∨
        max c1.val c2.val - min c1.val c2.val = 0 ∨
        max r1.val r2.val - min r1.val r2.val =
        max c1.val c2.val - min c1.val c2.val)) := by
  have hmv := is_a_move_ok_of_ne r1 c1 r2 c2 hne
  refine ⟨?_, ?_, ?_⟩ <;> rintro (hsq | hsq) <;>
    simp only [is_legal_move, h1, h2, hmv, hsq] <;>
    split_ifs with hcond <;> simp [hcond]

/-- Witness for C8: on the initial board White's rook on (0,0) may move
to the empty square (4,0) — `dr = 4`, `dc = 0` — even though the
intervening square (1,0) is occupied by White's own pawn. -/
theorem C8_witness :
    is_legal_move Board.new .White 0 0 4 0 = .ok () ∧
    Board.new 1 0 ≠ .Empty :=
  ⟨((C8_sliding_shapes Board.new .White 0 0 4 0 (by decide) (by decide)
      (by decide)).1 (Or.inl (by decide))).mpr (Or.inr (by decide)),
    by decide⟩

/-- A reachable position (initial board after White 2c→3c, i.e. the pawn
from (1,2) standing on (2,2)) from which White can attempt the backward
pawn move (2,2) → (1,2) onto an empty square. -/
def backwardPawnBoard : Board :=
  setSquare (setSquare Board.new 1 2 .Empty) 2 2 (.White .Pawn)

/-- The pawn movement rule as the spec words it: exactly one row forward
(toward higher rows for White, lower rows for Black), and either straight
(`dc = 0`) onto an empty destination or diagonal (`dc = 1`) onto a square
occupied by the opposing side. -/
def pawnLegalSpec (b : Board) (r1 c1 r2 c2 : Fin 8) : Prop :=
  match b r1 c1 with
  | .White .Pawn =>
      r2.val = r1.val + 1 ∧
      ((c1 = c2 ∧ b r2 c2 = .Empty) ∨
       (max c1.val c2.val - min c1.val c2.val = 1 ∧ isBlack (b r2 c2) = true))
  | .Black .Pawn =>
      r1.val = r2.val + 1 ∧
      ((c1 = c2 ∧ b r2 c2 = .Empty) ∨
       (max c1.val c2.val - min c1.val c2.val = 1 ∧ isWhite (b r2 c2) = true))
  | _ => False

/-- C3 counterexample: on `backwardPawnBoard` the backward White pawn move
(2,2) → (1,2) passes the ownership and non-null-move checks, yet the row
delta the pawn arm computes — `r2 - r1` in `usize` arithmetic — does
underflow: `1 - 2` wraps to `2^64 − 1`, which is not the actual row
distance 1, contradicting the claim's "no arithmetic underflow in
computing the signed row delta" (under Rust's overflow-checked profile
this very subtraction panics instead of returning any violation). -/
theorem C3_counterexample :
    is_not_enemy backwardPawnBoard .White 2 2 = .ok () ∧
    is_not_team backwardPawnBoard .White 1 2 = .ok () ∧
    is_a_move (max 2 1 - min 2 1) (max 2 2 - min 2 2) = .ok () ∧
    backwardPawnBoard 2 2 = .White .Pawn ∧
    backwardPawnBoard 1 2 = .Empty ∧
    (1 : Nat) < 2 ∧ wsub 1 2 = 2 ^ 64 - 1 ∧ (2 : Nat) ^ 64 - 1 ≠ 1 := by
  decide

/-- C3 amended: for every board and every in-range pair passing the
ownership and non-null-move checks with a pawn on the source, the pawn
arm always returns a result: success exactly on the spec's pawn shape
(one row forward; straight onto empty or diagonal onto the opposing
side), and the `IllegalMove` violation on every other delta — including
a backward row delta, where the wrapping row subtraction underflows to a
huge value that simply fails the shape pattern. -/
theorem C3_pawn_shape (b : Board) (turn : Team) (r1 c1 r2 c2 : Fin 8)
    (h1 : is_not_enemy b turn r1 c1 = .ok ())
    (h2 : is_not_team b turn r2 c2 = .ok ())
    (hne : ¬(r1 = r2 ∧ c1 = c2))
    (hp : b r1 c1 = .White .Pawn ∨ b r1 c1 = .Black .Pawn) :
    (is_legal_move b turn r1 c1 r2 c2 = .ok () ∨
     is_legal_move b turn r1 c1 r2 c2 = .error .IllegalMove) ∧
    (is_legal_move b turn r1 c1 r2 c2 = .ok () ↔
      pawnLegalSpec b r1 c1 r2 c2) := by
  have hmv := is_a_move_ok_of_ne r1 c1 r2 c2 hne
  have hw1 : wsub r2.val r1.val = 1 ↔ r2.val = r1.val + 1 :=
    wsub_eq_one_iff r2.val r1.val r2.isLt r1.isLt
  have hw2 : wsub r1.val r2.val = 1 ↔ r1.val = r2.val + 1 :=
    wsub_eq_one_iff r1.val r2.val r1.isLt r2.isLt
  have hdc0 : max c1.val c2.val - min c1.val c2.val = 0 ↔ c1 = c2 :=
    delta_zero_iff c1 c2
  rcases hp with hsq | hsq <;>
    simp only [is_legal_move, h1, h2, hmv, hsq, pawnLegalSpec] <;>
    split_ifs with ha hb
  · exact ⟨Or.inl rfl,
      iff_of_true rfl ⟨hw1.mp ha.1, Or.inl ⟨hdc0.mp ha.2.1, ha.2.2⟩⟩⟩
  · exact ⟨Or.inl rfl,
      iff_of_true rfl ⟨hw1.mp hb.1, Or.inr ⟨hb.2.1, hb.2.2⟩⟩⟩
  · refine ⟨Or.inr rfl,
      iff_of_false not_false ?_⟩
    rintro ⟨hfwd, hc | hc⟩
    · exact ha ⟨hw1.mpr hfwd, hdc0.mpr hc.1, hc.2⟩
    · exact hb ⟨hw1.mpr hfwd, hc.1, hc.2⟩
  · exact ⟨Or.inl rfl,
      iff_of_true rfl ⟨hw2.mp ha.1, Or.inl ⟨hdc0.mp ha.2.1, ha.2.2⟩⟩⟩
  · exact ⟨Or.inl rfl,
      iff_of_true rfl ⟨hw2.mp hb.1, Or.inr ⟨hb.2.1, hb.2.2⟩⟩⟩
  · refine ⟨Or.inr rfl,
      iff_of_false not_false ?_⟩
    rintro ⟨hfwd, hc | hc⟩
    · exact ha ⟨hw2.mpr hfwd, hdc0.mpr hc.1, hc.2⟩
    · exact hb ⟨hw2.mpr hfwd, hc.1, hc.2⟩

/-- Witness for C3 (amended): initial board, White pawn (1,2) to (2,2)
satisfies the hypotheses; the dispatch returns a result and the success
condition coincides with the spec's pawn rule. -/
theorem C3_witness :
    (is_legal_move Board.new .White 1 2 2 2 = .ok () ∨
     is_legal_move Board.new .White 1 2 2 2 = .error .IllegalMove) ∧
    (is_legal_move Board.new .White 1 2 2 2 = .ok () ↔
      pawnLegalSpec Board.new 1 2 2 2) :=
  C3_pawn_shape Board.new .White 1 2 2 2 (by decide) (by decide)
    (by decide) (Or.inl (by decide))

/-- C5: starting from the initial board, after any finite sequence of
`move_piece` calls (successful or not, with arbitrary arguments) the
number of occupied squares is at most 32; no single call increases it; a
successful call keeps it unchanged when the parsed destination square was
empty and decreases it by exactly one when it was occupied; and the count
of squares holding any fixed non-empty state never increases (no piece is
created or duplicated). -/
theorem C5_piece_count_invariant :
    (∀ ms : List (Team × List Char × List Char),
      pieceCount (runMoves ms) ≤ 32) ∧
    (∀ (b : Board) (turn : Team) (fromSq toSq : List Char),
      pieceCount (move_piece b turn fromSq toSq).1 ≤ pieceCount b) ∧
    (∀ (b : Board) (turn : Team) (fromSq toSq : List Char) (b' : Board)
        (k : Option Piece) (r1 c1 r2 c2 : Fin 8),
      move_piece b turn fromSq toSq = (b', .ok k) →
      convert_square_number fromSq = .ok (r1, c1) →
      convert_square_number toSq = .ok (r2, c2) →
      (b r2 c2 = .Empty → pieceCount b' = pieceCount b) ∧
      (b r2 c2 ≠ .Empty → pieceCount b' + 1 = pieceCount b)) ∧
    (∀ (b : Board) (turn : Team) (fromSq toSq : List Char) (s : SquareState),
      s ≠ .Empty →
      stateCount s (move_piece b turn fromSq toSq).1 ≤ stateCount s b) := by
  refine ⟨?_, pieceCount_move_le, ?_, stateCount_move_le⟩
  · intro ms
    exact pieceCount_foldl_le ms Board.new (le_of_eq pieceCount_new)
  · intro b turn f t b' k r1 c1 r2 c2 h hf ht
    have hpc := pieceCount_move_succ b turn f t b' k r1 c1 r2 c2 h hf ht
    have h0 : pieceWeight .Empty = 0 := rfl
    constructor
    · intro hE
      rw [hE, h0, Nat.add_zero] at hpc
      exact hpc
    · intro hNE
      have hw : pieceWeight (b r2 c2) = 1 := by
        cases hq : b r2 c2 with
        | Empty => exact absurd hq hNE
        | White p => rfl
        | Black p => rfl
      omega

/-- Witness for C5: the one-call sequence White "2c"→"3c" keeps the count
at most 32, and — the destination (2,2) being empty — the successful call
leaves the count equal to the initial board's. -/
theorem C5_witness :
    pieceCount (runMoves [(.White, ['2', 'c'], ['3', 'c'])]) ≤ 32 ∧
    pieceCount (move_piece Board.new .White ['2', 'c'] ['3', 'c']).1 =
      pieceCount Board.new := by
  refine ⟨C5_piece_count_invariant.1 [(.White, ['2', 'c'], ['3', 'c'])],
    (C5_piece_count_invariant.2.2.1 Board.new .White ['2', 'c']
      ['3', 'c']
      (move_piece Board.new .White ['2', 'c'] ['3', 'c']).1
      (some .Pawn) 1 2 2 2 (by decide) (by decide) (by decide)).1
      (by decide)⟩

lemma dropWhile_append_all {α : Type} {p : α → Bool} (l1 l2 : List α)
    (h : ∀ x ∈ l1, p x = true) :
    (l1 ++ l2).dropWhile p = l2.dropWhile p := by
  induction l1 with
  | nil => rfl
  | cons a l ih =>
    rw [List.cons_append, List.dropWhile_cons]
    rw [h a (List.mem_cons_self a l)]
    exact ih (fun x hx => h x (List.mem_cons_of_mem a hx))

lemma trimChars_surround (ws1 ws2 : List Char) (r c : Char)
    (h1 : ∀ x ∈ ws1, isWhitespaceChar x = true)
    (h2 : ∀ x ∈ ws2, isWhitespaceChar x = true)
    (hr : isWhitespaceChar r = false) (hc : isWhitespaceChar c = false) :
    trimChars (ws1 ++ r :: c :: ws2) = [r, c] := by
  have e1 : (r :: c :: ws2).dropWhile isWhitespaceChar = r :: c :: ws2 := by
    rw [List.dropWhile_cons, hr]
    simp
  have e2 : (r :: c :: ws2).reverse = ws2.reverse ++ [c, r] := by
    simp
  have e3 : (ws2.reverse ++ [c, r]).dropWhile isWhitespaceChar = [c, r] := by
    rw [dropWhile_append_all ws2.reverse [c, r]
      (fun x hx => h2 x (List.mem_reverse.mp hx))]
    rw [List.dropWhile_cons, hc]
    simp
  rw [trimChars, dropWhile_append_all ws1 (r :: c :: ws2) h1, e1, e2, e3]
  rfl

lemma char_not_ws_of_printable (x : Char) (h1 : 0x21 ≤ x.toNat)
    (h2 : x.toNat ≤ 0x7E) : isWhitespaceChar x = false := by
  simp only [isWhitespaceChar, decide_eq_false_iff_not]
  omega

lemma utf8Encode_ascii (n : Nat) (h : n < 0x80) : utf8Encode n = [n] := by
  rw [utf8Encode, if_pos h]

lemma utf8Encode_length_pos (n : Nat) : 1 ≤ (utf8Encode n).length := by
  rw [utf8Encode]
  split_ifs <;> simp

lemma utf8Encode_length_two (n : Nat) (h : 0x80 ≤ n) :
    2 ≤ (utf8Encode n).length := by
  rw [utf8Encode]
  split_ifs with ha hb hc
  · exact absurd h (by omega)
  · simp
  · simp
  · simp

lemma strBytes_nil : strBytes [] = [] := rfl

lemma strBytes_cons (c : Char) (s : List Char) :
    strBytes (c :: s) = utf8Encode c.toNat ++ strBytes s := by
  simp [strBytes]

lemma parseTwoBytes_ne2 (l : List Nat) (h : l.length ≠ 2) :
    parseTwoBytes l = .error .InvalidSquare := by
  rcases l with _ | ⟨a, _ | ⟨b, _ | ⟨c, tl⟩⟩⟩
  · rfl
  · rfl
  · exact absurd rfl h
  · rfl

lemma parseTwoBytes_utf8_multi (n : Nat) (h : 0x80 ≤ n) :
    parseTwoBytes (utf8Encode n) = .error .InvalidSquare := by
  rw [utf8Encode, if_neg (by omega)]
  by_cases h8 : n < 0x800
  · rw [if_pos h8]
    simp only [parseTwoBytes]
    rw [dif_neg (by omega), dif_neg (by omega)]
  · rw [if_neg h8]
    by_cases h16 : n < 0x10000
    · rw [if_pos h16]
      rfl
    · rw [if_neg h16]
      rfl

/-- C6: parsing succeeds on every rank digit '1'–'8' followed by a file
letter 'a'–'h' or 'A'–'H', with any surrounding whitespace characters
(the full Unicode `White_Space` set `str::trim` removes), returning
row = digit − 1 and column = the letter's case-folded alphabetical
position; and it fails with `InvalidSquare` exactly when the trimmed
string is not such a rank-then-file character pair (covering swapped
order such as "a1", any trimmed length other than 2, and non-ASCII
characters, whose multi-byte UTF-8 encodings fail the two-byte check or
its byte ranges). -/
theorem C6_parse_characterisation :
    (∀ (ws1 ws2 : List Char) (r c : Char),
      (∀ x ∈ ws1, isWhitespaceChar x = true) →
      (∀ x ∈ ws2, isWhitespaceChar x = true) →
      0x31 ≤ r.toNat → r.toNat ≤ 0x38 →
      ((0x61 ≤ c.toNat ∧ c.toNat ≤ 0x68) ∨
       (0x41 ≤ c.toNat ∧ c.toNat ≤ 0x48)) →
      ∃ q : Fin 8 × Fin 8,
        convert_square_number (ws1 ++ r :: c :: ws2) = .ok q ∧
        q.1.val = r.toNat - 0x31 ∧
        q.2.val =
          (if 0x61 ≤ c.toNat then c.toNat - 0x61 else c.toNat - 0x41)) ∧
    (∀ s : List Char,
      convert_square_number s = .error .InvalidSquare ↔
      ¬∃ r c : Char, trimChars s = [r, c] ∧
        0x31 ≤ r.toNat ∧ r.toNat ≤ 0x38 ∧
        ((0x61 ≤ c.toNat ∧ c.toNat ≤ 0x68) ∨
         (0x41 ≤ c.toNat ∧ c.toNat ≤ 0x48))) := by
  constructor
  · intro ws1 ws2 r c hws1 hws2 hr1 hr2 hcr
    have hrw : isWhitespaceChar r = false :=
      char_not_ws_of_printable r (by omega) (by omega)
    have hcw : isWhitespaceChar c = false := by
      rcases hcr with ⟨hc1, hc2⟩ | ⟨hc1, hc2⟩ <;>
        exact char_not_ws_of_printable c (by omega) (by omega)
    have htrim := trimChars_surround ws1 ws2 r c hws1 hws2 hrw hcw
    have hb : strBytes [r, c] = [r.toNat, c.toNat] := by
      rcases hcr with ⟨hc1, hc2⟩ | ⟨hc1, hc2⟩ <;>
        rw [strBytes_cons, strBytes_cons, strBytes_nil,
          utf8Encode_ascii r.toNat (by omega),
          utf8Encode_ascii c.toNat (by omega)] <;> rfl
    simp only [convert_square_number, htrim, hb, parseTwoBytes]
    rcases hcr with ⟨hc1, hc2⟩ | ⟨hc1, hc2⟩
    · rw [dif_pos ⟨hr1, hr2, hc1, hc2⟩]
      exact ⟨_, rfl, rfl, by rw [if_pos hc1]⟩
    · rw [dif_neg (by omega), dif_pos ⟨hr1, hr2, hc1, hc2⟩]
      exact ⟨_, rfl, rfl, by rw [if_neg (by omega)]⟩
  · intro s
    rcases htr : trimChars s with _ | ⟨d, _ | ⟨e, _ | ⟨f, rest⟩⟩⟩
    · simp only [convert_square_number, htr, strBytes_nil]
      rw [parseTwoBytes_ne2 [] (by simp)]
      exact iff_of_true rfl (by rintro ⟨r, c, h, _⟩; simp at h)
    · by_cases hd : d.toNat < 0x80
      · have hb : strBytes [d] = [d.toNat] := by
          rw [strBytes_cons, strBytes_nil, utf8Encode_ascii d.toNat hd,
            List.append_nil]
        simp only [convert_square_number, htr, hb]
        rw [parseTwoBytes_ne2 [d.toNat] (by simp)]
        exact iff_of_true rfl (by rintro ⟨r, c, h, _⟩; simp at h)
      · have hge : 0x80 ≤ d.toNat := by omega
        have hb : strBytes [d] = utf8Encode d.toNat := by
          rw [strBytes_cons, strBytes_nil, List.append_nil]
        simp only [convert_square_number, htr, hb]
        exact iff_of_true (parseTwoBytes_utf8_multi d.toNat hge)
          (by rintro ⟨r, c, h, _⟩; simp at h)
    · by_cases hd : d.toNat < 0x80
      · by_cases he : e.toNat < 0x80
        · have hb : strBytes [d, e] = [d.toNat, e.toNat] := by
            rw [strBytes_cons, strBytes_cons, strBytes_nil,
              utf8Encode_ascii d.toNat hd, utf8Encode_ascii e.toNat he]
            rfl
          simp only [convert_square_number, htr, hb, parseTwoBytes]
          by_cases h1 : 0x31 ≤ d.toNat ∧ d.toNat ≤ 0x38 ∧
              0x61 ≤ e.toNat ∧ e.toNat ≤ 0x68
          · rw [dif_pos h1]
            refine iff_of_false (fun hx => Except.noConfusion hx) ?_
            intro hn
            exact hn ⟨d, e, rfl, h1.1, h1.2.1,
              Or.inl ⟨h1.2.2.1, h1.2.2.2⟩⟩
          · by_cases h2 : 0x31 ≤ d.toNat ∧ d.toNat ≤ 0x38 ∧
                0x41 ≤ e.toNat ∧ e.toNat ≤ 0x48
            · rw [dif_neg h1, dif_pos h2]
              refine iff_of_false (fun hx => Except.noConfusion hx) ?_
              intro hn
              exact hn ⟨d, e, rfl, h2.1, h2.2.1,
                Or.inr ⟨h2.2.2.1, h2.2.2.2⟩⟩
            · rw [dif_neg h1, dif_neg h2]
              refine iff_of_true rfl ?_
              rintro ⟨r, c, hrc, hp1, hp2, hor⟩
              have hre : r = d ∧ c = e := by
                have h' := List.cons.inj hrc
                exact ⟨h'.1.symm, (List.cons.inj h'.2).1.symm⟩
              obtain ⟨hre1, hre2⟩ := hre
              subst hre1; subst hre2
              rcases hor with ⟨hb1, hb2⟩ | ⟨hb1, hb2⟩
              · exact h1 ⟨hp1, hp2, hb1, hb2⟩
              · exact h2 ⟨hp1, hp2, hb1, hb2⟩
        · have hge : 0x80 ≤ e.toNat := by omega
          have hlen : (strBytes [d, e]).length ≠ 2 := by
            have l1 := utf8Encode_length_pos d.toNat
            have l2 := utf8Encode_length_two e.toNat hge
            simp only [strBytes_cons, strBytes_nil, List.length_append,
              List.length_nil]
            omega
          simp only [convert_square_number, htr]
          rw [parseTwoBytes_ne2 _ hlen]
          refine iff_of_true rfl ?_
          rintro ⟨r, c, hrc, hp1, hp2, hor⟩
          have hce : c = e := by
            have h' := List.cons.inj hrc
            exact ((List.cons.inj h'.2).1).symm
          subst hce
          rcases hor with ⟨hb1, hb2⟩ | ⟨hb1, hb2⟩ <;> omega
      · have hge : 0x80 ≤ d.toNat := by omega
        have hlen : (strBytes [d, e]).length ≠ 2 := by
          have l1 := utf8Encode_length_two d.toNat hge
          have l2 := utf8Encode_length_pos e.toNat
          simp only [strBytes_cons, strBytes_nil, List.length_append,
            List.length_nil]
          omega
        simp only [convert_square_number, htr]
        rw [parseTwoBytes_ne2 _ hlen]
        refine iff_of_true rfl ?_
        rintro ⟨r, c, hrc, hp1, hp2, hor⟩
        have hrd : r = d := (List.cons.inj hrc).1.symm
        subst hrd
        omega
    · have hlen : (strBytes (d :: e :: f :: rest)).length ≠ 2 := by
        have l1 := utf8Encode_length_pos d.toNat
        have l2 := utf8Encode_length_pos e.toNat
        have l3 := utf8Encode_length_pos f.toNat
        simp only [strBytes_cons, List.length_append]
        omega
      simp only [convert_square_number, htr]
      rw [parseTwoBytes_ne2 _ hlen]
      exact iff_of_true rfl (by rintro ⟨r, c, h, _⟩; simp at h)

/-- Witness for C6: the label " 8H " (space, rank '8', uppercase file
'H', space) parses to the zero-based pair (7,7). -/
theorem C6_witness :
    ∃ q : Fin 8 × Fin 8,
      convert_square_number ([' '] ++ '8' :: 'H' :: [' ']) = .ok q ∧
      q.1.val = '8'.toNat - 0x31 ∧
      q.2.val =
        (if 0x61 ≤ 'H'.toNat then 'H'.toNat - 0x61 else 'H'.toNat - 0x41) :=
  C6_parse_characterisation.1 [' '] [' '] '8' 'H' (by decide)
    (by decide) (by decide) (by decide) (Or.inr ⟨by decide, by decide⟩)

end Chess
